import Mathlib

/-!
# Verification of the `PCA.ipynb` face-dataset notebook

A shallow embedding of the notebook's own logic: the catalog builder
`create_facedb`, the metadata reader `read_metadata`, the grayscale /
downsampling pixel loader `get_pixel_data`, the flattening step, and the
PCA round-trip contract the notebook relies on.

Python strings are modelled as lists of characters (`Str`); the directory
scanned by `glob.glob` is modelled as the list of entry names it
enumerates; pandas column operations are modelled elementwise, following
their documented per-element semantics; image pixel channels are modelled
as exact rationals, so floating-point "within tolerance" statements become
exact equalities.
-/

namespace PCANotebook

/-- Python strings are modelled as lists of characters. -/
abbrev Str := List Char

/-- A Lean string literal, as the character-list model of a Python string. -/
def str (s : String) : Str := s.data

/-- One ASCII decimal digit, the characters matched by `\d` in the
notebook's filename regex (the filenames at issue are ASCII). -/
def isAsciiDigit (c : Char) : Bool := '0' ≤ c && c ≤ '9'

/-- Whether a directory entry is returned by `glob.glob(dir + "/*.jpg")`:
glob's `*` matches any character run in the final path component, but a
name starting with a dot is never matched by `*`. -/
def globMatchJpg : Str → Bool
  | [] => false
  | c :: rest => (c != '.') && (str ".jpg").isSuffixOf (c :: rest)

/-- The third component of Python's `s.rpartition("/")`: the characters
after the last slash, or the whole string when no slash occurs. -/
def afterLastSlash (s : Str) : Str :=
  (s.reverse.takeWhile (fun c => c != '/')).reverse

/-- Fuel-indexed worker for `replaceAll`; the fuel starts at the string's
length, which bounds the number of recursion steps. -/
def replaceAllFuel (pat repl : Str) : Nat → Str → Str
  | _, [] => []
  | 0, s => s
  | fuel + 1, c :: rest =>
    if 0 < pat.length ∧ pat.isPrefixOf (c :: rest) = true then
      repl ++ replaceAllFuel pat repl fuel (rest.drop (pat.length - 1))
    else
      c :: replaceAllFuel pat repl fuel rest

/-- Python's `s.replace(pat, repl)` for a non-empty pattern: every
occurrence is replaced, scanning left to right without overlap. -/
def replaceAll (pat repl s : Str) : Str := replaceAllFuel pat repl s.length s

/-- Whether the regex tail `(\d{7})[_.]` matches at the start of `rest`:
exactly seven digits followed by an underscore or a dot. -/
def sevenDigitsThenDelim (rest : Str) : Bool :=
  ((rest.take 7).length == 7) && (rest.take 7).all isAsciiDigit &&
    (rest[7]? == some '_' || rest[7]? == some '.')

/-- The first capture of `re.search(r"_(\d{7})[_.]", s)`, as used by
`pandas.Series.str.extract`: scan left to right; at an underscore try to
read seven digits and a delimiter; on failure resume at the next
character; `none` models the NaN pandas leaves when nothing matches. -/
def extract7 : Str → Option Str
  | [] => none
  | c :: rest =>
    if c == '_' && sevenDigitsThenDelim rest then some (rest.take 7)
    else extract7 rest

/-- A Python exception surfaced by the notebook's helpers. -/
inductive PyError
  | nameError (name : String)
  | attributeError
  | ioError
deriving DecidableEq

/-- One row of the `facedb` DataFrame built by `create_facedb`. -/
structure FaceRow where
  fullpath : Str
  filename : Str
  faceid : Option Str
  jsonfile : Str
deriving DecidableEq

/-- The row `create_facedb` derives from one matching entry name: the
full path is the glob result `dir ++ "/" ++ name`; the filename is the
part after the last slash; the face id is the regex extraction; the
metadata path replaces every occurrence of "/generated.photos/" and then
every occurrence of ".jpg". -/
def mkRow (dir name : Str) : FaceRow :=
  let fullpath := dir ++ '/' :: name
  let filename := afterLastSlash fullpath
  { fullpath := fullpath
    filename := filename
    faceid := extract7 filename
    jsonfile :=
      replaceAll (str ".jpg") (str ".json")
        (replaceAll (str "/generated.photos/") (str "/generated.photos_metadata/")
          fullpath) }

/-- `create_facedb(dir)`: the directory is modelled as the list of entry
names `glob.glob` enumerates; matching names are kept in enumeration
order, one catalog row each, built by the elementwise pandas column
pipeline. When no entry matches, the call raises instead of returning a
catalog: `db["fullpath"] = []` creates an empty float64 column on the
empty DataFrame, and the `.str` accessor in
`db["fullpath"].str.rpartition("/")` rejects the non-string dtype with
`AttributeError` (pandas 1.x, contemporary with the notebook; in later
pandas the rpartition of the empty object series yields a zero-column
frame and `partitioned.values[:, 2]` raises `IndexError` — the call
raises either way). -/
def create_facedb (dir : Str) (entries : List Str) : Except PyError (List FaceRow) :=
  let matched := entries.filter globMatchJpg
  if matched.isEmpty then Except.error PyError.attributeError
  else Except.ok (matched.map (mkRow dir))

/-- The catalog row the spec describes for one matching entry name,
stated directly in terms of the name: the glob path, the bare name
itself, the regex extraction from the name, and the metadata path
obtained by replacing every occurrence of `/generated.photos/` and then
every occurrence of `.jpg` in the full path. -/
def catalogRowSpec (dir name : Str) : FaceRow :=
  { fullpath := dir ++ '/' :: name
    filename := name
    faceid := extract7 name
    jsonfile :=
      replaceAll (str ".jpg") (str ".json")
        (replaceAll (str "/generated.photos/") (str "/generated.photos_metadata/")
          (dir ++ '/' :: name)) }

/-! ## The pixel loader `get_pixel_data`

Pixels are RGB triples of exact rationals; `np.dot(im_data, rgb_weights)`
becomes an exact weighted sum per pixel, `reshape(256, 256)` becomes a
guarded row-chunking that fails on a pixel-count mismatch (numpy raises),
and the strided slice `[::downsample, ::downsample]` keeps every
`downsample`-th row and column starting at index 0. -/

/-- One RGB pixel: the three channel values as exact rationals. -/
abbrev Pixel := ℚ × ℚ × ℚ

/-- The grayscale brightness of one pixel: its dot product with the
source's `rgb_weights = [0.2989, 0.5870, 0.1140]`. -/
def grayOf (p : Pixel) : ℚ :=
  p.1 * 0.2989 + p.2.1 * 0.5870 + p.2.2 * 0.1140

/-- The notebook's global `downsample = 5`. -/
def downsample : Nat := 5

/-- Worker for `everyNth`: `k` counts how many elements remain to skip
before the next kept one. -/
def everyNthAux (s : Nat) : Nat → List α → List α
  | _, [] => []
  | 0, a :: rest => a :: everyNthAux s (s - 1) rest
  | k + 1, _ :: rest => everyNthAux s k rest

/-- NumPy's strided slice `l[::s]`: the elements at indices
`0, s, 2*s, ...` in order. -/
def everyNth (s : Nat) (l : List α) : List α := everyNthAux s 0 l

/-- The 2-D strided slice `g[::s, ::s]`: every `s`-th row, and of each
kept row every `s`-th entry. -/
def downsampleGrid (s : Nat) (g : List (List α)) : List (List α) :=
  (everyNth s g).map (everyNth s)

/-- `h` successive rows of `w` entries cut from the front of `l`
(row-major order, as numpy stores arrays). -/
def chunkRows (w : Nat) : Nat → List α → List (List α)
  | 0, _ => []
  | h + 1, l => l.take w :: chunkRows w h (l.drop w)

/-- `np.reshape(h, w)` on a flat sequence: defined exactly when the
element count is `h * w`, else the numpy call raises. -/
def reshape2 (h w : Nat) (l : List α) : Option (List (List α)) :=
  if l.length = h * w then some (chunkRows w h l) else none

/-- The per-image body of the `get_pixel_data` loop: grayscale every
pixel, reshape the flat sequence to 256 x 256, then downsample both axes
by the global stride. -/
def processImage (im : List Pixel) : Option (List (List ℚ)) :=
  (reshape2 256 256 (im.map grayOf)).map (downsampleGrid downsample)

/-- `get_pixel_data(face_ids)`: the images on disk are modelled as a list
indexed by catalog row id (`facedb["fullpath"][id]`); each requested id
is loaded and processed in order, and any failed lookup or reshape
aborts the whole call, as the uncaught Python exception would. -/
def get_pixel_data (images : List (List Pixel)) : List Nat → Option (List (List (List ℚ)))
  | [] => some []
  | id :: rest =>
    match images[id]? with
    | none => none
    | some im =>
      match processImage im with
      | none => none
      | some g =>
        match get_pixel_data images rest with
        | none => none
        | some gs => some (g :: gs)

/-- `image_list.reshape(num_images, -1)`: each image's rows are
concatenated into one flat row per image. -/
def image_flattened (stack : List (List (List α))) : List (List α) :=
  stack.map List.flatten

/-! ## The PCA contract

The notebook delegates PCA to `sklearn.decomposition.PCA`, whose code is
not part of this repository; the model below follows the spec's contract
for the dimensionality reducer: a fitted model is a feature-mean vector
together with an ordered orthonormal family of component vectors; the
forward projection takes inner products of the centered sample with the
first `k` components, and the inverse transform adds the weighted sum of
those components back to the mean. Exact rationals stand in for floats,
so "within numerical tolerance" becomes exact equality. -/

/-- The dot product of two feature vectors of dimension `d`. -/
def dotQ {d : Nat} (u v : Fin d → ℚ) : ℚ := ∑ i, u i * v i

/-- Modelled from the spec: a fitted PCA's components are mutually
orthogonal unit vectors ("component vectors ordered by descending
explained variance", produced by an eigendecomposition / SVD); only the
first `K` members of the family are the fitted components. -/
def OrthonormalFamily {d : Nat} (K : Nat) (c : Nat → Fin d → ℚ) : Prop :=
  ∀ i < K, ∀ j < K, dotQ (c i) (c j) = if i = j then 1 else 0

/-- Modelled from the spec: the `i`-th coordinate of
`pca.fit_transform` for sample `v` — the inner product of the centered
sample with component `i` ("a forward projection mapping each sample to
its k-dimensional coordinate"). -/
def pcaCoord {d : Nat} (μ : Fin d → ℚ) (c : Nat → Fin d → ℚ)
    (v : Fin d → ℚ) (i : Nat) : ℚ :=
  dotQ (fun j => v j - μ j) (c i)

/-- Modelled from the spec: `pca.inverse_transform` of the forward
projection of `v` under a `k`-component fit — "reconstructs an
approximate original sample from a k-dimensional coordinate by adding
the weighted sum of components to the feature-mean". -/
def pcaRecon {d : Nat} (μ : Fin d → ℚ) (c : Nat → Fin d → ℚ)
    (k : Nat) (v : Fin d → ℚ) : Fin d → ℚ :=
  fun j => μ j + ∑ i ∈ Finset.range k, pcaCoord μ c v i * c i j

/-- The reconstruction error of one sample: the sum of squared
differences between the sample and its `k`-component reconstruction. -/
def reconErr {d : Nat} (μ : Fin d → ℚ) (c : Nat → Fin d → ℚ)
    (k : Nat) (v : Fin d → ℚ) : ℚ :=
  ∑ j, (v j - pcaRecon μ c k v j) ^ 2

/-! ## The metadata reader `read_metadata`

Only the reader's control flow matters here: Python resolves the global
name `pprint` at the moment `pprint.pformat(...)` is evaluated (before
its argument), and raises `NameError` when no binding exists. -/

/-- A successfully parsed metadata file, reduced to the part
`read_metadata` renders. -/
structure FaceMetadata where
  faceAttributes : Str

/-- Every name the notebook's cells bind at module scope: the import
cell's bindings followed by assignments, function definitions and the
`for`-loop variables Python leaks into module scope. -/
def notebookTopLevelNames : List String :=
  ["np", "plt", "Axes3D", "pd", "sns", "PCA", "KMeans", "glob", "json", "Image",
   "create_facedb", "read_metadata", "facedb",
   "downsample", "get_pixel_data", "num_images", "image_list", "image_shape",
   "image_flattened",
   "image_selection", "n_components", "pca", "transformed", "reconstruction",
   "fig", "axs", "idx", "ax",
   "component_list", "eigen_face",
   "weights", "new_image",
   "x", "y", "cluster_predictions",
   "axs_all", "cluster_idx", "cluster_positions", "image_idx"]

/-- `read_metadata(facedb, id)` past the file lookup: `none` models an
open or `json.load` failure; on a successful parse the body evaluates
`pprint.pformat(data["faceAttributes"])`, which first resolves the
global name `pprint` in the environment `env` and raises `NameError`
when it is unbound. `pprint.pformat`'s rendering itself is library code,
modelled as returning the attributes it is given. -/
def read_metadata (env : List String) (file : Option FaceMetadata) :
    Except PyError Str :=
  match file with
  | none => Except.error PyError.ioError
  | some data =>
    if env.contains "pprint" then Except.ok data.faceAttributes
    else Except.error (PyError.nameError "pprint")

/-! ## Concrete inputs used to instantiate the theorems -/

/-- A 10 x 10 synthetic image matrix with values 0..99 in row-major
order. -/
def tenGrid : List (List Nat) :=
  (List.range 10).map (fun i => (List.range 10).map (fun j => 10 * i + j))

/-- A 256 x 256 image of one constant RGB pixel, as a flat pixel list. -/
def constIm : List Pixel := List.replicate (256 * 256) (1, 2, 3)

/-- The grid `processImage` produces for `constIm`. -/
def constImGrid : List (List ℚ) :=
  downsampleGrid 5 (chunkRows 256 256 (constIm.map grayOf))

/-- A two-sample stack of 2 x 2 grids. -/
def smallStack : List (List (List ℚ)) :=
  [[[1, 2], [3, 4]], [[5, 6], [7, 8]]]

/-- The standard basis of `ℚ²`, as a component family. -/
def cW : Nat → Fin 2 → ℚ := fun i j =>
  if i = 0 then (if j = 0 then 1 else 0)
  else if i = 1 then (if j = 1 then 1 else 0)
  else 0

/-- A concrete feature mean in `ℚ²`. -/
def muW : Fin 2 → ℚ := fun _ => 1

/-- A concrete sample in `ℚ²`. -/
def vW : Fin 2 → ℚ := fun j => if j = 0 then 3 else 5

/-- Coordinates of `vW - muW` in the family `cW`. -/
def aW : Nat → ℚ := fun i => if i = 0 then 2 else if i = 1 then 4 else 0

/-! ## Helper lemmas on the string model -/

/-- `rpartition("/")` recovers the bare entry name from a glob result,
since entry names contain no slash. -/
theorem afterLastSlash_append (dir name : Str) (h : '/' ∉ name) :
    afterLastSlash (dir ++ '/' :: name) = name := by
  have hall : ∀ c ∈ name.reverse, (c != '/') = true := by
    intro c hc
    simp only [List.mem_reverse] at hc
    simp only [bne_iff_ne, ne_eq]
    exact fun hcc => h (hcc ▸ hc)
  have hrev : (dir ++ '/' :: name).reverse = name.reverse ++ ('/' :: dir.reverse) := by
    simp
  rw [afterLastSlash, hrev, List.takeWhile_append_of_pos hall]
  simp

/-- The row `create_facedb` builds coincides with the spec's description
of that row, provided the entry name contains no slash. -/
theorem mkRow_eq_catalogRowSpec (dir name : Str) (h : '/' ∉ name) :
    mkRow dir name = catalogRowSpec dir name := by
  simp [mkRow, catalogRowSpec, afterLastSlash_append dir name h]

/-! ## C1 and C8: the catalog builder -/

/-- C1 (amended): for a directory with at least one entry matching the
`*.jpg` glob pattern and whose entry names contain no slash,
`create_facedb` returns one catalog row per matching entry, in
enumeration order; each row's faceid is the 7-digit string extracted
from the filename (underscore before, underscore or dot after, `none`
when no such run occurs), and its jsonfile is the full path with every
occurrence of `/generated.photos/` replaced by
`/generated.photos_metadata/` and every occurrence of the substring
`.jpg` replaced by `.json`. -/
theorem create_facedb_catalog (dir : Str) (entries : List Str)
    (hnoslash : ∀ n ∈ entries, '/' ∉ n)
    (hmatch : ∃ n ∈ entries, globMatchJpg n = true) :
    create_facedb dir entries
      = Except.ok ((entries.filter globMatchJpg).map (catalogRowSpec dir)) ∧
    ((entries.filter globMatchJpg).map (catalogRowSpec dir)).length
      = (entries.filter globMatchJpg).length := by
  have hmap : (entries.filter globMatchJpg).map (mkRow dir)
      = (entries.filter globMatchJpg).map (catalogRowSpec dir) :=
    List.map_congr_left fun name hn =>
      mkRow_eq_catalogRowSpec dir name (hnoslash name (List.mem_of_mem_filter hn))
  have hne : (entries.filter globMatchJpg).isEmpty = false := by
    obtain ⟨n, hn, hg⟩ := hmatch
    have hmem : n ∈ entries.filter globMatchJpg := List.mem_filter.mpr ⟨hn, hg⟩
    cases hfe : entries.filter globMatchJpg with
    | nil => rw [hfe] at hmem; simp at hmem
    | cons a t => rfl
  refine ⟨?_, List.length_map _ _⟩
  simp [create_facedb, hne, hmap]

/-- C1 (witness): the spec's own scenario; the hypotheses hold and the
row for `a_0000001_b.jpg` carries id `"0000001"` and the expected
metadata path. -/
theorem create_facedb_catalog_witness :
    (∀ n ∈ [str "a_0000001_b.jpg", str "README.md"], '/' ∉ n) ∧
    (∃ n ∈ [str "a_0000001_b.jpg", str "README.md"], globMatchJpg n = true) ∧
    create_facedb (str "/srv/data/faces/generated.photos")
        [str "a_0000001_b.jpg", str "README.md"]
      = Except.ok (([str "a_0000001_b.jpg", str "README.md"].filter globMatchJpg).map
          (catalogRowSpec (str "/srv/data/faces/generated.photos"))) ∧
    (create_facedb (str "/srv/data/faces/generated.photos")
        [str "a_0000001_b.jpg", str "README.md"]).toOption.map
          (List.map FaceRow.faceid)
      = some [some (str "0000001")] ∧
    (create_facedb (str "/srv/data/faces/generated.photos")
        [str "a_0000001_b.jpg", str "README.md"]).toOption.map
          (List.map FaceRow.jsonfile)
      = some [str "/srv/data/faces/generated.photos_metadata/a_0000001_b.json"] := by
  have h : ∀ n ∈ [str "a_0000001_b.jpg", str "README.md"], '/' ∉ n := by decide
  have hm : ∃ n ∈ [str "a_0000001_b.jpg", str "README.md"], globMatchJpg n = true := by
    decide
  exact ⟨h, hm,
    (create_facedb_catalog (str "/srv/data/faces/generated.photos")
      [str "a_0000001_b.jpg", str "README.md"] h hm).1,
    by decide, by decide⟩

/-- C1 (counterexample): a matching file whose name contains `.jpg`
twice; the code replaces both occurrences, so the produced metadata path
is not "the full path with the `.jpg` extension replaced by `.json`". -/
theorem create_facedb_extension_counterexample :
    (create_facedb (str "/srv/data/faces/generated.photos")
        [str "a_0000001_b.jpg.jpg"]).toOption.map (List.map FaceRow.jsonfile)
      = some [str "/srv/data/faces/generated.photos_metadata/a_0000001_b.json.json"] ∧
    str "/srv/data/faces/generated.photos_metadata/a_0000001_b.json.json"
      ≠ str "/srv/data/faces/generated.photos_metadata/a_0000001_b.jpg.json" := by
  decide

/-- C8 (the code at the claim's input): a directory with no entry
matching the `*.jpg` pattern makes `create_facedb` raise — the empty
column breaks the `.str` accessor — instead of returning the empty
catalog the claim and the spec describe. -/
theorem create_facedb_no_match_raises (dir : Str) (entries : List Str)
    (h : ∀ n ∈ entries, globMatchJpg n = false) :
    create_facedb dir entries = Except.error PyError.attributeError := by
  have hnil : entries.filter globMatchJpg = [] :=
    List.filter_eq_nil_iff.mpr fun n hn => by simp [h n hn]
  simp [create_facedb, hnil]

/-- C8 (witness): a directory holding a text file and a dot-file (which
glob's `*` never matches) makes the call raise. -/
theorem create_facedb_no_match_raises_witness :
    (∀ n ∈ [str "notes.txt", str ".hidden.jpg"], globMatchJpg n = false) ∧
    create_facedb (str "/srv/data/faces/generated.photos")
        [str "notes.txt", str ".hidden.jpg"]
      = Except.error PyError.attributeError := by
  have h : ∀ n ∈ [str "notes.txt", str ".hidden.jpg"], globMatchJpg n = false := by
    decide
  exact ⟨h, create_facedb_no_match_raises (str "/srv/data/faces/generated.photos")
    [str "notes.txt", str ".hidden.jpg"] h⟩

/-! ## Helper lemmas on strided slices and reshaping -/

/-- The worker `everyNthAux s k` keeps the elements at indices
`k, k + s, k + 2*s, ...`. -/
theorem everyNthAux_getElem? {α : Type _} (s : Nat) (hs : 0 < s) :
    ∀ (l : List α) (k i : Nat), (everyNthAux s k l)[i]? = l[k + i * s]? := by
  intro l
  induction l with
  | nil => intro k i; simp [everyNthAux]
  | cons a rest ih =>
    intro k i
    match k with
    | 0 =>
      match i with
      | 0 => simp [everyNthAux]
      | i + 1 =>
        have hidx : 0 + (i + 1) * s = (s - 1 + i * s) + 1 := by
          rw [Nat.succ_mul]; omega
        rw [hidx]
        simp only [everyNthAux, List.getElem?_cons_succ]
        exact ih (s - 1) i
    | k + 1 =>
      have hidx : k + 1 + i * s = (k + i * s) + 1 := by omega
      simp only [everyNthAux]
      rw [hidx, List.getElem?_cons_succ]
      exact ih k i

/-- How many elements `everyNthAux s k` keeps. -/
theorem everyNthAux_length {α : Type _} (s : Nat) (hs : 0 < s) :
    ∀ (l : List α) (k : Nat),
      (everyNthAux s k l).length = (l.length - k + s - 1) / s := by
  intro l
  induction l with
  | nil =>
    intro k
    simp only [everyNthAux, List.length_nil]
    rw [show 0 - k + s - 1 = s - 1 by omega, Nat.div_eq_of_lt (by omega)]
  | cons a rest ih =>
    intro k
    match k with
    | 0 =>
      simp only [everyNthAux, List.length_cons, ih (s - 1)]
      rcases Nat.lt_or_ge rest.length (s - 1) with h | h
      · rw [show rest.length - (s - 1) + s - 1 = s - 1 by omega,
          Nat.div_eq_of_lt (show s - 1 < s by omega),
          show rest.length + 1 - 0 + s - 1 = rest.length + s by omega,
          Nat.add_div_right _ hs, Nat.div_eq_of_lt (by omega)]
      · rw [show rest.length - (s - 1) + s - 1 = rest.length by omega,
          show rest.length + 1 - 0 + s - 1 = rest.length + s by omega,
          Nat.add_div_right _ hs]
    | k + 1 =>
      simp only [everyNthAux, List.length_cons, ih k]
      congr 1
      omega

/-- A strided slice only keeps elements of the original list. -/
theorem everyNthAux_mem {α : Type _} (s : Nat) :
    ∀ (l : List α) (k : Nat) (x : α), x ∈ everyNthAux s k l → x ∈ l := by
  intro l
  induction l with
  | nil => intro k x h; simp [everyNthAux] at h
  | cons a rest ih =>
    intro k x h
    match k with
    | 0 =>
      simp only [everyNthAux, List.mem_cons] at h
      rcases h with h | h
      · exact h ▸ List.mem_cons_self a rest
      · exact List.mem_cons_of_mem a (ih (s - 1) x h)
    | k + 1 =>
      simp only [everyNthAux] at h
      exact List.mem_cons_of_mem a (ih k x h)

/-- `chunkRows` always produces the requested number of rows. -/
theorem chunkRows_length {α : Type _} (w : Nat) :
    ∀ (h : Nat) (l : List α), (chunkRows w h l).length = h := by
  intro h
  induction h with
  | zero => intro l; rfl
  | succ n ih => intro l; simp [chunkRows, ih]

/-- The `i`-th row `chunkRows` cuts from the flat list. -/
theorem chunkRows_getElem? {α : Type _} (w : Nat) :
    ∀ (h : Nat) (l : List α) (i : Nat),
      (chunkRows w h l)[i]? =
        if i < h then some ((l.drop (i * w)).take w) else none := by
  intro h
  induction h with
  | zero => intro l i; simp [chunkRows]
  | succ n ih =>
    intro l i
    match i with
    | 0 => simp [chunkRows]
    | i + 1 =>
      simp only [chunkRows, List.getElem?_cons_succ, ih (l.drop w) i]
      rw [List.drop_drop, show w + i * w = (i + 1) * w by rw [Nat.succ_mul]; omega]
      simp [Nat.succ_lt_succ_iff]

/-- When the flat list has exactly `h * w` elements, every row cut by
`chunkRows` has length `w`. -/
theorem chunkRows_row_length {α : Type _} (w : Nat) :
    ∀ (h : Nat) (l : List α), l.length = h * w →
      ∀ r ∈ chunkRows w h l, r.length = w := by
  intro h
  induction h with
  | zero => intro l _ r hr; simp [chunkRows] at hr
  | succ n ih =>
    intro l hl r hr
    simp only [chunkRows, List.mem_cons] at hr
    rcases hr with hr | hr
    · subst hr
      rw [List.length_take]
      have hw : w ≤ l.length := by rw [hl, Nat.succ_mul]; omega
      omega
    · exact ih (l.drop w)
        (by rw [List.length_drop, hl, Nat.succ_mul]; omega) r hr

/-- Flattening a grid of constant-width rows multiplies the lengths. -/
theorem flatten_length_const {α : Type _} (w : Nat) :
    ∀ (g : List (List α)), (∀ r ∈ g, r.length = w) →
      g.flatten.length = g.length * w := by
  intro g
  induction g with
  | nil => intro _; simp
  | cons r rest ih =>
    intro hr
    simp only [List.flatten_cons, List.length_append, List.length_cons,
      hr r (List.mem_cons_self r rest),
      ih (fun x hx => hr x (List.mem_cons_of_mem r hx)), Nat.succ_mul]
    omega

/-- Cutting a flattened grid back into rows of its own width recovers
the grid. -/
theorem chunkRows_flatten {α : Type _} (w : Nat) :
    ∀ (g : List (List α)), (∀ r ∈ g, r.length = w) →
      chunkRows w g.length g.flatten = g := by
  intro g
  induction g with
  | nil => intro _; rfl
  | cons r rest ih =>
    intro hr
    have hrw : r.length = w := hr r (List.mem_cons_self r rest)
    simp only [List.flatten_cons, List.length_cons, chunkRows]
    rw [← hrw, List.take_left, List.drop_left, hrw,
      ih (fun x hx => hr x (List.mem_cons_of_mem r hx))]

/-! ## C3: the strided downsampling -/

/-- C3: downsampling an `m x m` grid with a positive stride `s` yields a
`⌈m/s⌉ x ⌈m/s⌉` grid (with `⌈m/s⌉ = (m + s - 1) / s`) whose entry at
`(i, j)` is the original entry at `(i*s, j*s)`. -/
theorem downsampleGrid_spec {α : Type _} (s m : Nat) (hs : 0 < s)
    (g : List (List α)) (hrows : g.length = m)
    (hcols : ∀ row ∈ g, row.length = m) :
    (downsampleGrid s g).length = (m + s - 1) / s ∧
    (∀ row ∈ downsampleGrid s g, row.length = (m + s - 1) / s) ∧
    (∀ i j : Nat,
      ((downsampleGrid s g)[i]?.bind fun row => row[j]?) =
        (g[i * s]?.bind fun row => row[j * s]?)) := by
  refine ⟨?_, ?_, ?_⟩
  · unfold downsampleGrid everyNth
    rw [List.length_map, everyNthAux_length s hs g 0, hrows]
    congr 1
  · intro row hrow
    unfold downsampleGrid everyNth at hrow
    rcases List.mem_map.mp hrow with ⟨orig, horig, rfl⟩
    have horigmem := everyNthAux_mem s g 0 orig horig
    rw [everyNthAux_length s hs orig 0, hcols orig horigmem]
    congr 1
  · intro i j
    unfold downsampleGrid everyNth
    rw [List.getElem?_map, everyNthAux_getElem? s hs g 0 i]
    simp only [Nat.zero_add]
    cases hg : g[i * s]? with
    | none => simp
    | some row =>
      simp only [Option.map_some', Option.some_bind]
      rw [everyNthAux_getElem? s hs row 0 j]
      simp only [Nat.zero_add]

/-- C3 (witness): the spec's 10 x 10 scenario with stride 2 — the result
is the 5 x 5 grid of entries at even row/column indices — together with
the stride-5 size of a 256-row axis, `(256 + 5 - 1) / 5 = 52`. -/
theorem downsampleGrid_spec_witness :
    (0 < 2 ∧ tenGrid.length = 10 ∧ (∀ row ∈ tenGrid, row.length = 10)) ∧
    (downsampleGrid 2 tenGrid).length = (10 + 2 - 1) / 2 ∧
    downsampleGrid 2 tenGrid =
      [[0, 2, 4, 6, 8], [20, 22, 24, 26, 28], [40, 42, 44, 46, 48],
       [60, 62, 64, 66, 68], [80, 82, 84, 86, 88]] ∧
    (10 + 2 - 1) / 2 = 5 ∧ (256 + 5 - 1) / 5 = 52 := by
  refine ⟨⟨by decide, by decide, by decide⟩, ?_, by decide, by decide, by decide⟩
  exact (downsampleGrid_spec 2 10 (by decide) tenGrid (by decide) (by decide)).1

/-! ## C4: flattening and reshaping back -/

/-- C4: flattening a stack of `n` grids of shape `h x w` yields `n` rows
of length `h * w`, and reshaping each row back to `(h, w)` reproduces
the original grids exactly. -/
theorem image_flattened_roundtrip {α : Type _} (stack : List (List (List α)))
    (hgt wid : Nat)
    (hshape : ∀ g ∈ stack, g.length = hgt ∧ ∀ row ∈ g, row.length = wid) :
    (image_flattened stack).length = stack.length ∧
    (∀ row ∈ image_flattened stack, row.length = hgt * wid) ∧
    (image_flattened stack).map (reshape2 hgt wid) = stack.map some := by
  refine ⟨List.length_map _ _, ?_, ?_⟩
  · intro row hrow
    rcases List.mem_map.mp hrow with ⟨g, hgmem, rfl⟩
    obtain ⟨hl, hr⟩ := hshape g hgmem
    rw [flatten_length_const wid g hr, hl]
  · rw [image_flattened, List.map_map]
    apply List.map_congr_left
    intro g hgmem
    obtain ⟨hl, hr⟩ := hshape g hgmem
    show reshape2 hgt wid g.flatten = some g
    unfold reshape2
    rw [flatten_length_const wid g hr, hl, if_pos rfl, ← hl,
      chunkRows_flatten wid g hr]

/-- C4 (witness): a concrete two-image stack of 2 x 2 grids flattens to
two rows of length 4 and reshapes back losslessly. -/
theorem image_flattened_roundtrip_witness :
    (∀ g ∈ smallStack, g.length = 2 ∧ ∀ row ∈ g, row.length = 2) ∧
    (image_flattened smallStack).length = smallStack.length ∧
    (∀ row ∈ image_flattened smallStack, row.length = 2 * 2) ∧
    (image_flattened smallStack).map (reshape2 2 2) = smallStack.map some := by
  have h : ∀ g ∈ smallStack, g.length = 2 ∧ ∀ row ∈ g, row.length = 2 := by
    decide
  exact ⟨h, image_flattened_roundtrip smallStack 2 2 h⟩

/-! ## C2, C7, C9: the pixel loader -/

/-- A successful `processImage` run forces the 256*256 pixel count and
determines the grid. -/
theorem processImage_eq (im : List Pixel) (g : List (List ℚ))
    (hp : processImage im = some g) :
    im.length = 256 * 256 ∧
    g = downsampleGrid 5 (chunkRows 256 256 (im.map grayOf)) := by
  unfold processImage reshape2 at hp
  rw [List.length_map] at hp
  by_cases him : im.length = 256 * 256
  · refine ⟨him, ?_⟩
    rw [if_pos him] at hp
    simp only [Option.map_some'] at hp
    exact (Option.some.inj hp).symm
  · rw [if_neg him] at hp
    simp at hp

/-- An image with the right pixel count processes successfully into a
52 x 52 grid. -/
theorem processImage_some (im : List Pixel) (hlen : im.length = 256 * 256) :
    processImage im = some (downsampleGrid 5 (chunkRows 256 256 (im.map grayOf))) ∧
    (downsampleGrid 5 (chunkRows 256 256 (im.map grayOf))).length = 52 ∧
    ∀ row ∈ downsampleGrid 5 (chunkRows 256 256 (im.map grayOf)),
      row.length = 52 := by
  refine ⟨?_, ?_, ?_⟩
  · unfold processImage reshape2
    rw [List.length_map, if_pos hlen]
    rfl
  · unfold downsampleGrid everyNth
    rw [List.length_map, everyNthAux_length 5 (by omega) _ 0, chunkRows_length]
  · intro row hrow
    unfold downsampleGrid everyNth at hrow
    rcases List.mem_map.mp hrow with ⟨orig, horig, rfl⟩
    have hmem := everyNthAux_mem 5 _ 0 orig horig
    have horiglen : orig.length = 256 :=
      chunkRows_row_length 256 256 (im.map grayOf)
        (by rw [List.length_map, hlen]) orig hmem
    rw [everyNthAux_length 5 (by omega) orig 0, horiglen]

/-- C2: in any successfully processed image, the retained grid entry at
`(i, j)` is exactly the fixed-weight dot product of the RGB channels of
the source pixel it came from (the pixel at flat index
`(5*i)*256 + 5*j`). -/
theorem processImage_gray_dot (im : List Pixel) (g : List (List ℚ))
    (hp : processImage im = some g) (i j : Nat) (hi : i < 52) (hj : j < 52) :
    (g[i]?.bind fun row => row[j]?) =
      (im[(5 * i) * 256 + 5 * j]?).map
        (fun p => p.1 * 0.2989 + p.2.1 * 0.5870 + p.2.2 * 0.1140) := by
  obtain ⟨him, rfl⟩ := processImage_eq im g hp
  unfold downsampleGrid everyNth
  rw [List.getElem?_map, everyNthAux_getElem? 5 (by omega) _ 0 i]
  simp only [Nat.zero_add]
  rw [chunkRows_getElem?, if_pos (show i * 5 < 256 by omega)]
  simp only [Option.map_some', Option.some_bind]
  rw [everyNthAux_getElem? 5 (by omega) _ 0 j]
  simp only [Nat.zero_add]
  rw [List.getElem?_take, if_pos (show j * 5 < 256 by omega),
    List.getElem?_drop, List.getElem?_map,
    show i * 5 * 256 + j * 5 = 5 * i * 256 + 5 * j by ring]
  rfl

/-- C2 (witness): the constant image processes successfully and its top
left grid entry is the weighted sum of the pixel `(1, 2, 3)`. -/
theorem processImage_gray_dot_witness :
    processImage constIm = some constImGrid ∧
    (constImGrid[0]?.bind fun row => row[0]?) =
      (constIm[(5 * 0) * 256 + 5 * 0]?).map
        (fun p : Pixel => p.1 * 0.2989 + p.2.1 * 0.5870 + p.2.2 * 0.1140) := by
  have hlen : constIm.length = 256 * 256 := by
    rw [constIm, List.length_replicate]
  have hp : processImage constIm = some constImGrid :=
    (processImage_some constIm hlen).1
  exact ⟨hp, processImage_gray_dot constIm constImGrid hp 0 0
    (by omega) (by omega)⟩

/-- C7: an image whose pixel count is not 256*256 fails the reshape, and
a `get_pixel_data` call whose id list reaches it returns no stack at
all. -/
theorem get_pixel_data_shape_mismatch (images : List (List Pixel))
    (ids : List Nat) (id : Nat) (im : List Pixel)
    (hmem : id ∈ ids) (hlook : images[id]? = some im)
    (hlen : im.length ≠ 256 * 256) :
    processImage im = none ∧ get_pixel_data images ids = none := by
  have hnone : processImage im = none := by
    unfold processImage reshape2
    rw [List.length_map, if_neg hlen]
    rfl
  refine ⟨hnone, ?_⟩
  have key : ∀ l : List Nat, id ∈ l → get_pixel_data images l = none := by
    intro l
    induction l with
    | nil => intro h; simp at h
    | cons a rest ih =>
      intro h
      rcases List.mem_cons.mp h with rfl | h'
      · simp only [get_pixel_data, hlook, hnone]
      · simp only [get_pixel_data, ih h']
        split
        · rfl
        · split
          · rfl
          · rfl
  exact key ids hmem

/-- C7 (witness): a one-pixel image aborts the whole loading pass. -/
theorem get_pixel_data_shape_mismatch_witness :
    ((0 : Nat) ∈ [0] ∧ ([[((1 : ℚ), (1 : ℚ), (1 : ℚ))]] : List (List Pixel))[0]?
        = some [(1, 1, 1)] ∧ ([((1 : ℚ), (1 : ℚ), (1 : ℚ))] : List Pixel).length ≠ 256 * 256) ∧
    processImage [((1 : ℚ), (1 : ℚ), (1 : ℚ))] = none ∧
    get_pixel_data [[((1 : ℚ), (1 : ℚ), (1 : ℚ))]] [0] = none := by
  refine ⟨⟨by decide, by decide, by decide⟩, ?_⟩
  exact get_pixel_data_shape_mismatch [[(1, 1, 1)]] [0] 0 [(1, 1, 1)]
    (by decide) (by decide) (by decide)

/-- C9: when every requested id resolves to an image of the assumed
pixel count, `get_pixel_data` returns one 52 x 52 grid per id, and the
`i`-th grid of the stack is the processed image of the `i`-th id. -/
theorem get_pixel_data_stack (images : List (List Pixel)) (ids : List Nat)
    (hvalid : ∀ id ∈ ids, ∃ im, images[id]? = some im ∧ im.length = 256 * 256) :
    ∃ stack, get_pixel_data images ids = some stack ∧
      stack.length = ids.length ∧
      (∀ g ∈ stack, g.length = 52 ∧ ∀ row ∈ g, row.length = 52) ∧
      (∀ i : Nat, stack[i]? =
        (ids[i]?.bind fun id => images[id]?.bind processImage)) := by
  induction ids with
  | nil => exact ⟨[], rfl, rfl, by simp, by simp [get_pixel_data]⟩
  | cons a rest ih =>
    obtain ⟨im, hima, hlen⟩ := hvalid a (List.mem_cons_self a rest)
    obtain ⟨hg, hg52, hgrow⟩ := processImage_some im hlen
    obtain ⟨stack, hstack, hslen, hsshape, hsidx⟩ :=
      ih (fun id hid => hvalid id (List.mem_cons_of_mem a hid))
    refine ⟨downsampleGrid 5 (chunkRows 256 256 (im.map grayOf)) :: stack,
      ?_, ?_, ?_, ?_⟩
    · simp only [get_pixel_data, hima, hg, hstack]
    · simp [hslen]
    · intro g' hg'
      rcases List.mem_cons.mp hg' with rfl | h'
      · exact ⟨hg52, hgrow⟩
      · exact hsshape g' h'
    · intro i
      match i with
      | 0 => simp [hima, hg]
      | i + 1 =>
        simp only [List.getElem?_cons_succ]
        exact hsidx i

/-- C9 (witness): two requests for the constant image yield a
two-element stack of 52 x 52 grids in request order. -/
theorem get_pixel_data_stack_witness :
    (∀ id ∈ [0, 0], ∃ im, ([constIm] : List (List Pixel))[id]? = some im ∧
      im.length = 256 * 256) ∧
    ∃ stack, get_pixel_data [constIm] [0, 0] = some stack ∧
      stack.length = ([0, 0] : List Nat).length ∧
      (∀ g ∈ stack, g.length = 52 ∧ ∀ row ∈ g, row.length = 52) ∧
      (∀ i : Nat, stack[i]? =
        (([0, 0] : List Nat)[i]?.bind fun id =>
          ([constIm] : List (List Pixel))[id]?.bind processImage)) := by
  have hv : ∀ id ∈ [0, 0], ∃ im, ([constIm] : List (List Pixel))[id]? = some im ∧
      im.length = 256 * 256 := by
    intro id hid
    have : id = 0 := by
      rcases List.mem_cons.mp hid with h | h
      · exact h
      · simpa using h
    subst this
    exact ⟨constIm, rfl, by rw [constIm, List.length_replicate]⟩
  exact ⟨hv, get_pixel_data_stack [constIm] [0, 0] hv⟩

/-! ## C5 and C6: the PCA reconstruction laws -/

/-- Subtraction in the first argument of the dot product. -/
theorem dotQ_sub_left {d : Nat} (u w x : Fin d → ℚ) :
    dotQ (fun j => u j - w j) x = dotQ u x - dotQ w x := by
  unfold dotQ
  rw [← Finset.sum_sub_distrib]
  exact Finset.sum_congr rfl (fun j _ => by ring)

/-- A weighted sum in the first argument of the dot product. -/
theorem dotQ_sum_left {d : Nat} (f : Nat → Fin d → ℚ) (t : Nat → ℚ)
    (k : Nat) (x : Fin d → ℚ) :
    dotQ (fun j => ∑ i ∈ Finset.range k, t i * f i j) x =
      ∑ i ∈ Finset.range k, t i * dotQ (f i) x := by
  unfold dotQ
  simp_rw [Finset.sum_mul]
  rw [Finset.sum_comm]
  simp_rw [mul_assoc]
  simp_rw [← Finset.mul_sum]

/-- The residual after a `k`-component reconstruction is still fully
correlated with the next component: its dot product with `c k` is the
`k`-th coordinate. -/
theorem residual_dot {d : Nat} (μ : Fin d → ℚ) (c : Nat → Fin d → ℚ)
    (v : Fin d → ℚ) (K k : Nat) (hc : OrthonormalFamily K c) (hk : k < K) :
    dotQ (fun j => v j - pcaRecon μ c k v j) (c k) = pcaCoord μ c v k := by
  have hexp : (fun j => v j - pcaRecon μ c k v j)
      = fun j => (v j - μ j) -
          ∑ i ∈ Finset.range k, pcaCoord μ c v i * c i j := by
    funext j
    unfold pcaRecon
    ring
  rw [hexp, dotQ_sub_left, dotQ_sum_left]
  have hzero : ∑ i ∈ Finset.range k, pcaCoord μ c v i * dotQ (c i) (c k) = 0 := by
    apply Finset.sum_eq_zero
    intro i hi
    have hik : i < k := Finset.mem_range.mp hi
    rw [hc i (lt_trans hik hk) k hk, if_neg (Nat.ne_of_lt hik), mul_zero]
  rw [hzero, sub_zero]
  rfl

/-- Adding the `(k+1)`-st component lowers the reconstruction error by
exactly the square of the `k`-th coordinate. -/
theorem reconErr_succ {d : Nat} (μ : Fin d → ℚ) (c : Nat → Fin d → ℚ)
    (v : Fin d → ℚ) (K k : Nat) (hc : OrthonormalFamily K c) (hk : k < K) :
    reconErr μ c (k + 1) v = reconErr μ c k v - (pcaCoord μ c v k) ^ 2 := by
  unfold reconErr
  have hrec : ∀ j, pcaRecon μ c (k + 1) v j
      = pcaRecon μ c k v j + pcaCoord μ c v k * c k j := by
    intro j
    unfold pcaRecon
    rw [Finset.sum_range_succ]
    ring
  have hexp : ∀ j : Fin d, (v j - pcaRecon μ c (k + 1) v j) ^ 2
      = (v j - pcaRecon μ c k v j) ^ 2
        - 2 * pcaCoord μ c v k * ((v j - pcaRecon μ c k v j) * c k j)
        + (pcaCoord μ c v k) ^ 2 * (c k j * c k j) := by
    intro j
    rw [hrec j]
    ring
  rw [Finset.sum_congr rfl (fun j _ => hexp j), Finset.sum_add_distrib,
    Finset.sum_sub_distrib, ← Finset.mul_sum, ← Finset.mul_sum]
  have h1 : ∑ j, (v j - pcaRecon μ c k v j) * c k j = pcaCoord μ c v k := by
    have := residual_dot μ c v K k hc hk
    simpa [dotQ] using this
  have h2 : ∑ j, c k j * c k j = (1 : ℚ) := by
    have := hc k hk k hk
    simpa [dotQ] using this
  rw [h1, h2]
  ring

/-- C5: the PCA reconstruction error is monotonically non-increasing in
the retained component count, for any orthonormally fitted family. -/
theorem reconErr_mono {d : Nat} (μ : Fin d → ℚ) (c : Nat → Fin d → ℚ)
    (v : Fin d → ℚ) (K : Nat) (hc : OrthonormalFamily K c)
    (k k' : Nat) (hkk' : k ≤ k') (hk'K : k' ≤ K) :
    reconErr μ c k' v ≤ reconErr μ c k v := by
  induction k', hkk' using Nat.le_induction with
  | base => exact le_rfl
  | succ n hn ih =>
    have hstep := reconErr_succ μ c v K n hc (by omega)
    have hsq : (0 : ℚ) ≤ (pcaCoord μ c v n) ^ 2 := sq_nonneg _
    have h1 : reconErr μ c (n + 1) v ≤ reconErr μ c n v := by
      rw [hstep]
      linarith
    exact le_trans h1 (ih (by omega))

/-- C5 (witness): in the plane with the standard basis as fitted
components, the two-component error is at most the one-component
error. -/
theorem reconErr_mono_witness :
    OrthonormalFamily 2 cW ∧
    reconErr muW cW 2 vW ≤ reconErr muW cW 1 vW := by
  have hc : OrthonormalFamily 2 cW := by
    unfold OrthonormalFamily
    intro i hi j hj
    interval_cases i <;> interval_cases j <;>
      simp [dotQ, cW, Fin.sum_univ_two]
  exact ⟨hc, reconErr_mono muW cW vW 2 hc 1 2 (by omega) (by omega)⟩

/-- C6: when the centered sample lies in the span of the `K` fitted
components — which PCA guarantees when `K = min(n_samples, n_features)`,
since the components then span the centered data — the full
reconstruction returns the sample exactly. -/
theorem pcaRecon_full {d : Nat} (μ : Fin d → ℚ) (c : Nat → Fin d → ℚ)
    (v : Fin d → ℚ) (K : Nat) (hc : OrthonormalFamily K c) (a : Nat → ℚ)
    (hspan : ∀ j, v j - μ j = ∑ i ∈ Finset.range K, a i * c i j) :
    ∀ j, pcaRecon μ c K v j = v j := by
  have hco : ∀ i < K, pcaCoord μ c v i = a i := by
    intro i hi
    unfold pcaCoord
    rw [show (fun j => v j - μ j)
        = fun j => ∑ m ∈ Finset.range K, a m * c m j from funext hspan,
      dotQ_sum_left]
    rw [Finset.sum_eq_single i]
    · rw [hc i hi i hi, if_pos rfl, mul_one]
    · intro m hm hne
      rw [hc m (Finset.mem_range.mp hm) i hi, if_neg hne, mul_zero]
    · intro habs
      exact absurd (Finset.mem_range.mpr hi) habs
  intro j
  unfold pcaRecon
  rw [Finset.sum_congr rfl
    (fun i hi => by rw [hco i (Finset.mem_range.mp hi)]), ← hspan j]
  ring

/-- C6 (witness): `vW - muW = 2·e₀ + 4·e₁`, and the two-component
reconstruction returns `vW` exactly. -/
theorem pcaRecon_full_witness :
    (OrthonormalFamily 2 cW ∧
      ∀ j, vW j - muW j = ∑ i ∈ Finset.range 2, aW i * cW i j) ∧
    ∀ j, pcaRecon muW cW 2 vW j = vW j := by
  have hc : OrthonormalFamily 2 cW := by
    unfold OrthonormalFamily
    intro i hi j hj
    interval_cases i <;> interval_cases j <;>
      simp [dotQ, cW, Fin.sum_univ_two]
  have hs : ∀ j, vW j - muW j = ∑ i ∈ Finset.range 2, aW i * cW i j := by
    intro j
    fin_cases j <;>
      simp [vW, muW, aW, cW, Finset.sum_range_succ] <;> norm_num
  exact ⟨⟨hc, hs⟩, pcaRecon_full muW cW vW 2 hc aW hs⟩

/-! ## C10: the metadata reader -/

/-- C10: the notebook never binds the name `pprint`, so every call of
`read_metadata` whose metadata file opens and parses successfully raises
`NameError` at `pprint.pformat` instead of returning. -/
theorem read_metadata_nameError :
    "pprint" ∉ notebookTopLevelNames ∧
    ∀ data : FaceMetadata,
      read_metadata notebookTopLevelNames (some data) =
        Except.error (PyError.nameError "pprint") := by
  refine ⟨by decide, ?_⟩
  intro data
  simp only [read_metadata]
  rw [if_neg (by decide : ¬ notebookTopLevelNames.contains "pprint" = true)]

/-- C10 (witness): a concrete successfully parsed metadata value still
produces the `NameError`. -/
theorem read_metadata_nameError_witness :
    read_metadata notebookTopLevelNames (some ⟨str "smile"⟩) =
      Except.error (PyError.nameError "pprint") :=
  read_metadata_nameError.2 ⟨str "smile"⟩

end PCANotebook
